import Mathlib

/-!
Verification of the on-leveling and loss-reserving pipeline
(`RateChangeSchedule`, `ParallelogramOLF`, `Pipeline`) behind the
chainladder example `plot_capecod_onlevel`.

The repository ships only the example notebook; the core it exercises is
modelled here from the specification.  Calendar time is embedded as ℚ
(years), monetary values and rate levels as ℚ.
-/

namespace OnLevel

/-- Modelled from the spec: a `RateChangeEvent` is an effective date paired
with a signed rate-change fraction (§3). -/
structure RateChangeEvent where
  date : ℚ
  rate_change : ℚ
deriving DecidableEq, Repr

/-- Modelled from the spec: a rate-change schedule is the parsed ordered
sequence of events (§3, §4.1). -/
abbrev Schedule := List RateChangeEvent

/-- Modelled from the spec: the cumulative multiplicative rate-level index at
date `t` — the product of `(1 + rate_change)` over every event effective on or
before `t` (§3, §4.1 "Query level at date"); dates before the earliest event
clamp to the base level 1. -/
def level (sched : Schedule) (t : ℚ) : ℚ :=
  ((sched.filter (fun ev => decide (ev.date ≤ t))).map
    (fun ev => 1 + ev.rate_change)).prod

/-- The product of `(1 + rate_change)` over all events with date in the
half-open interval `(t1, t2]`. -/
def prodChanges (sched : Schedule) (t1 t2 : ℚ) : ℚ :=
  ((sched.filter (fun ev => decide (t1 < ev.date) && decide (ev.date ≤ t2))).map
    (fun ev => 1 + ev.rate_change)).prod

/-- The product of `(1 + rate_change)` over all events of the schedule: the
level prevailing after the last rate change. -/
def fullProd (sched : Schedule) : ℚ :=
  (sched.map (fun ev => 1 + ev.rate_change)).prod

/-- Modelled from the spec: an origin period is a half-open calendar interval
`[start, stop)` representing one row of the triangle (§3). -/
structure OriginPeriod where
  start : ℚ
  stop : ℚ
deriving DecidableEq, Repr

/-- Modelled from the spec: configuration of `ParallelogramOLF` — the parsed
rate-change schedule, the `vertical_line` weighting mode and the earning
term `T` (§4.2). -/
structure OLFConfig where
  sched : Schedule
  vertical_line : Bool
  term : ℚ
deriving DecidableEq

/-- Cumulative mass, up to date `x`, of the vertical-line weight: the
indicator of the origin period `[s, e)` (§4.2, `vertical_line = true`:
partition `[s, e)` at event boundaries and length-weight each piece). -/
def vertCum (s e x : ℚ) : ℚ := max s (min x e) - s

/-- Cumulative mass, up to date `x`, of the parallelogram weight for the
origin period `[s, e)` and earning term `T`: the trapezoidal density
`u ↦ min (u - s) (min (e + T - u) (min T (e - s)))` on `[s, e + T)`, the
closed-form overlap length between the sliding earned-exposure window
`[w, w + T)`, `w ∈ [s, e)`, and the vertical line at `u` (§4.2,
`vertical_line = false`; §9 closed-form piecewise-linear integration). -/
def triCum (s e T x : ℚ) : ℚ :=
  let m := min T (e - s)
  let y := max s (min x (e + T))
  if y ≤ s + m then (y - s) ^ 2 / 2
  else if y ≤ e + T - m then m ^ 2 / 2 + m * (y - s - m)
  else m * (e + T - s - m) - (e + T - y) ^ 2 / 2

/-- Event dates of a schedule in ascending order. -/
def sortedDates (sched : Schedule) : List ℚ :=
  (sched.map (fun ev => ev.date)).insertionSort (· ≤ ·)

/-- Sum of `level × weight-mass` over the segments cut by a list of dates,
for the segments from the first listed date onward; `Wcum` is the cumulative
weight and `Wtot` its total mass. -/
def tailIntegral (sched : Schedule) (Wcum : ℚ → ℚ) (Wtot : ℚ) :
    List ℚ → ℚ
  | [] => 0
  | [d] => level sched d * (Wtot - Wcum d)
  | d :: d2 :: rest =>
      level sched d * (Wcum d2 - Wcum d) +
        tailIntegral sched Wcum Wtot (d2 :: rest)

/-- Modelled from the spec: `Σ (segment mass × level)` — the integral of the
piecewise-constant rate-level index against a weight density, computed by
partitioning the timeline at every event boundary (§4.2 step 2). -/
def levelIntegral (sched : Schedule) (Wcum : ℚ → ℚ) (Wtot : ℚ) : ℚ :=
  match sortedDates sched with
  | [] => Wtot
  | d :: rest => Wcum d + tailIntegral sched Wcum Wtot (d :: rest)

/-- Modelled from the spec: the average historical rate level of an origin
period — point-in-time (length-weighted) for `vertical_line = true`,
parallelogram (area-weighted overlap, normalized by `(e - s) · T`) for
`vertical_line = false` (§4.2 step 2). -/
def avgLevel (cfg : OLFConfig) (p : OriginPeriod) : ℚ :=
  if cfg.vertical_line then
    levelIntegral cfg.sched (vertCum p.start p.stop) (p.stop - p.start) /
      (p.stop - p.start)
  else
    levelIntegral cfg.sched (triCum p.start p.stop cfg.term)
      ((p.stop - p.start) * cfg.term) / ((p.stop - p.start) * cfg.term)

/-- Modelled from the spec:
`on_level_factor[origin] = level(reference_current_date) / average_level[origin]`
(§4.2 step 3). -/
def onLevelFactor (cfg : OLFConfig) (ref : ℚ) (p : OriginPeriod) : ℚ :=
  level cfg.sched ref / avgLevel cfg p

/-- Modelled from the spec: the error taxonomy of §7, plus a numeric code for
failures raised by external estimator stages. -/
inductive CLError where
  | scheduleError
  | dateRangeError
  | configurationError
  | shapeError
  | stageContractError
  | externalError (code : Nat)
deriving DecidableEq, Repr

/-- The cached factor table produced by a fit: one on-level factor per
origin period (§3 `OnLevelFactor`). -/
def fittedTable (cfg : OLFConfig) (ref : ℚ) (ps : List OriginPeriod) :
    List (OriginPeriod × ℚ) :=
  ps.map (fun p => (p, onLevelFactor cfg ref p))

/-- Modelled from the spec: `ParallelogramOLF.fit` — validates the origin
periods and the earning term, then computes the factor table
(§4.2 steps 1–4; fails with `ConfigurationError` if some period has
`e ≤ s` or if `T ≤ 0`). -/
def fit (cfg : OLFConfig) (ps : List OriginPeriod) (ref : ℚ) :
    Except CLError (List (OriginPeriod × ℚ)) :=
  if ps.any (fun p => decide (p.stop ≤ p.start)) || decide (cfg.term ≤ 0) then
    .error .configurationError
  else
    .ok (fittedTable cfg ref ps)

/-- Modelled from the spec: a triangle-like object — rows indexed by origin
period holding the values across development periods, plus valuation-date
metadata (§3, §6). -/
structure Triangle where
  rows : List (OriginPeriod × List ℚ)
  valuation : ℚ
deriving DecidableEq

/-- The origin periods of a triangle. -/
def origins (X : Triangle) : List OriginPeriod := X.rows.map Prod.fst

/-- Scale every value of each row by a per-origin factor, returning a new
triangle with the same shape and metadata. -/
def scaleRows (f : OriginPeriod → ℚ) (X : Triangle) : Triangle :=
  { X with rows := X.rows.map (fun r => (r.1, r.2.map (fun v => v * f r.1))) }

/-- Look up the cached factor of an origin period in a fitted factor table
(periods absent from the table are left unscaled). -/
def lookupFactor (tbl : List (OriginPeriod × ℚ)) (p : OriginPeriod) : ℚ :=
  match tbl.find? (fun q => decide (q.1 = p)) with
  | some q => q.2
  | none => 1

/-- Modelled from the spec: `ParallelogramOLF.transform` — multiplies every
value whose row corresponds to origin period `p` by `on_level_factor[p]`,
broadcast across all other axes; returns a new triangle-like object of
identical shape and metadata (§4.2). -/
def transform (tbl : List (OriginPeriod × ℚ)) (X : Triangle) : Triangle :=
  scaleRows (lookupFactor tbl) X

/-- Multiply every value of each row by the reciprocal of its origin
period's cached factor (the inverse of `transform`). -/
def reciprocalScale (tbl : List (OriginPeriod × ℚ)) (X : Triangle) : Triangle :=
  scaleRows (fun p => (lookupFactor tbl p)⁻¹) X

/-- The shape of a triangle: its origin periods with their row lengths. -/
def shape (X : Triangle) : List (OriginPeriod × Nat) :=
  X.rows.map (fun r => (r.1, r.2.length))

/-- Modelled from the spec: `ParallelogramOLF.fit_transform` — derives the
origin periods from the input (failing with `ShapeError` on an empty
triangle), fits, and applies the factors (§4.2). -/
def fitTransform (cfg : OLFConfig) (ref : ℚ) (X : Triangle) :
    Except CLError Triangle :=
  if X.rows.isEmpty then .error .shapeError
  else (fit cfg (origins X) ref).map (fun tbl => transform tbl X)

/-- Modelled from the spec: a non-terminal pipeline stage, consumed through
the estimator contract — `fit_transform(X, sample_weight)` producing the
transformed data (§4.3, §6). -/
structure TStage where
  fitTransform : Triangle → Option Triangle → Except CLError Triangle

/-- Modelled from the spec: the terminal estimator stage —
`fit(X, sample_weight)` producing the terminal result attribute (the
`ultimate_` triangle) (§4.3, §6). -/
structure TerminalStage where
  fitUlt : Triangle → Option Triangle → Except CLError Triangle

/-- Run the non-terminal stages in sequence, replacing `X` with each stage's
`fit_transform` output and threading the sample weight along (§4.3). -/
def runStages (stages : List TStage) (X : Triangle) (w : Option Triangle) :
    Except CLError Triangle :=
  match stages with
  | [] => .ok X
  | st :: rest => (st.fitTransform X w).bind (fun X2 => runStages rest X2 w)

/-- Modelled from the spec: `Pipeline.fit` — each stage except the last is
called with `fit_transform` on the current `X`, and the final stage is
called with `fit` to produce the terminal result (§4.3). -/
def pipelineFit (stages : List TStage) (last : TerminalStage) (X : Triangle)
    (w : Option Triangle) : Except CLError Triangle :=
  (runStages stages X w).bind (fun Xn => last.fitUlt Xn w)

/-- The `ParallelogramOLF` estimator wrapped as a pipeline stage; its own
transform does not consume the sample weight (§4.2, §9). -/
def olfStage (cfg : OLFConfig) (ref : ℚ) : TStage :=
  ⟨fun X _w => fitTransform cfg ref X⟩

/-- An external `Development` stage, consumed through the estimator contract:
an arbitrary data-only `fit_transform` (§6). -/
def devStage (devF : Triangle → Except CLError Triangle) : TStage :=
  ⟨fun X _w => devF X⟩

/-- An external `CapeCod` terminal stage, consumed through the estimator
contract: an arbitrary `fit(X, sample_weight)` producing `ultimate_` (§6). -/
def capeCodStage (ccF : Triangle → Option Triangle → Except CLError Triangle) :
    TerminalStage :=
  ⟨ccF⟩

/-- The manual composition of §8: `X1 = OLF.fit_transform(X)`, then
`X2 = Development.fit_transform(X1)`, then `CapeCod.fit(X2, sample_weight=W)`,
returning the terminal `ultimate_` result. -/
def manualCapeCod (cfg : OLFConfig) (ref : ℚ)
    (devF : Triangle → Except CLError Triangle)
    (ccF : Triangle → Option Triangle → Except CLError Triangle)
    (X W : Triangle) : Except CLError Triangle :=
  (fitTransform cfg ref X).bind fun X1 =>
    (devF X1).bind fun X2 => ccF X2 (some W)

/-- A fitting session: the shared input triangle together with the terminal
results committed by successive pipeline fits, in fit order.  Each fit reads
the input and appends its own result, owning no other state (§3, §7). -/
structure Session where
  data : Triangle
  results : List (Except CLError Triangle)

/-- Fit one pipeline within a session: computes the pipeline's terminal
result from the session's input triangle and commits it (§4.3, §7). -/
def sessionFit (stages : List TStage) (last : TerminalStage)
    (w : Option Triangle) (s : Session) : Session :=
  { data := s.data, results := s.results ++ [pipelineFit stages last s.data w] }

/-- The premium rate-change history of the example: ten annual changes
starting 1999-01-01. -/
def rateHist : Schedule :=
  [⟨1999, 2/100⟩, ⟨2000, 2/100⟩, ⟨2001, 2/100⟩, ⟨2002, 2/100⟩, ⟨2003, 5/100⟩,
   ⟨2004, 75/1000⟩, ⟨2005, 15/100⟩, ⟨2006, 1/10⟩, ⟨2007, -2/10⟩, ⟨2008, -2/10⟩]

/-- The loss tort-reform schedule of the example: -10.67% at 2006-01-01 and
-25% at 2007-01-01. -/
def tortReform : Schedule := [⟨2006, -1067/10000⟩, ⟨2007, -1/4⟩]

/-- The premium on-leveling configuration: parallelogram weighting with a
one-year earning term. -/
def cfgHist : OLFConfig := ⟨rateHist, false, 1⟩

/-- The loss on-leveling configuration: vertical-line weighting. -/
def cfgTort : OLFConfig := ⟨tortReform, true, 1⟩

/-- The calendar-year-2005 origin period. -/
def p2005 : OriginPeriod := ⟨2005, 2006⟩

/-- A one-row triangle holding the value 1 for origin period 2005, valued at
2008. -/
def X2005 : Triangle := ⟨[(p2005, [1])], 2008⟩

theorem level_mul_prodChanges (sched : Schedule) (t1 t2 : ℚ) (h : t1 ≤ t2) :
    level sched t2 = level sched t1 * prodChanges sched t1 t2 := by
  induction sched with
  | nil => simp [level, prodChanges]
  | cons ev tl ih =>
    by_cases h1 : ev.date ≤ t1
    · have h2 : ev.date ≤ t2 := le_trans h1 h
      have h3 : ¬ t1 < ev.date := not_lt.mpr h1
      simp only [level, prodChanges] at *
      simp [List.filter_cons, h1, h2, h3]
      rw [ih]; ring
    · have h3 : t1 < ev.date := lt_of_not_le h1
      by_cases h2 : ev.date ≤ t2
      · simp only [level, prodChanges] at *
        simp [List.filter_cons, h1, h2, h3]
        rw [ih]; ring
      · simp only [level, prodChanges] at *
        simp [List.filter_cons, h1, h2, h3]
        exact ih

/-- Claim C2: for every rate-change schedule and every pair of dates
`t1 < t2` in the indexed range (in particular with a nonvanishing level at
`t1`), the built rate-level index satisfies
`level t2 / level t1 = ∏ (1 + rate_change)` over every event whose date lies
in the half-open interval `(t1, t2]`. -/
theorem level_ratio_eq_prodChanges (sched : Schedule) (t1 t2 : ℚ)
    (h : t1 < t2) (h0 : level sched t1 ≠ 0) :
    level sched t2 / level sched t1 = prodChanges sched t1 t2 := by
  rw [level_mul_prodChanges sched t1 t2 (le_of_lt h)]
  field_simp

/-- Witness for claim C2 on the tort-reform schedule between 2005 and
2008. -/
theorem level_ratio_eq_prodChanges_witness :
    level tortReform 2008 / level tortReform 2005 =
      prodChanges tortReform 2005 2008 :=
  level_ratio_eq_prodChanges tortReform 2005 2008 (by norm_num)
    (by norm_num [level, tortReform, List.filter])

/-- Claim C3: for the 10-year annual schedule starting 1999 with
`vertical_line = false` and a one-year term, the average level `fit` computes
for the policy-year-2000 origin period lies strictly between the index level
at 2000-01-01 and the index level at 2001-01-01 (parallelogram blending), so
in particular it equals neither endpoint. -/
theorem policyYear2000_avg_strictly_between :
    level rateHist 2000 < avgLevel cfgHist ⟨2000, 2001⟩ ∧
    avgLevel cfgHist ⟨2000, 2001⟩ < level rateHist 2001 := by
  constructor <;>
    norm_num [avgLevel, cfgHist, levelIntegral, sortedDates, tailIntegral,
      level, triCum, rateHist, List.insertionSort, List.orderedInsert,
      List.filter]

/-- Counterexample to claim C4 as stated: with the tort-reform schedule and
`vertical_line = true`, fitting over calendar year 2005 and transforming a
2005 value of 1 yields `(1 - 0.1067) × (1 - 0.25) = 26799/40000 ≈ 0.6700`
— the value is scaled down — and not `40000/26799 ≈ 1.4925` as the claim's
final clause asserts. -/
theorem tortReform2005_not_scaled_up :
    transform (fittedTable cfgTort 2008 [p2005]) X2005 =
      ⟨[(p2005, [26799/40000])], 2008⟩ ∧
    ¬ transform (fittedTable cfgTort 2008 [p2005]) X2005 =
      ⟨[(p2005, [40000/26799])], 2008⟩ := by
  have hval : transform (fittedTable cfgTort 2008 [p2005]) X2005 =
      ⟨[(p2005, [26799/40000])], 2008⟩ := by
    norm_num [transform, scaleRows, fittedTable, lookupFactor, X2005,
      onLevelFactor, avgLevel, cfgTort, levelIntegral, sortedDates,
      tailIntegral, level, vertCum, tortReform, p2005, List.insertionSort,
      List.orderedInsert, List.filter, List.find?]
  refine ⟨hval, ?_⟩
  rw [hval]
  intro hcontra
  have : (26799/40000 : ℚ) = 40000/26799 := by
    have := congrArg (fun X => X.rows) hcontra
    simpa using this
  norm_num at this

/-- Claim C4 (amended): with the tort-reform schedule and
`vertical_line = true`, fitting over calendar year 2005 computes that
period's average level as the (constant) index level prevailing through
2005, the on-level factor as `(1 - 0.1067) × (1 - 0.25) ≈ 0.6700`, and
`transform` multiplies 2005 values by that factor — scaling them down to the
current (post-reform) level, i.e. dividing by ≈ 1.4925. -/
theorem tortReform2005_scaled_to_current :
    avgLevel cfgTort p2005 = level tortReform 2005 ∧
    onLevelFactor cfgTort 2008 p2005 = (1 - 1067/10000) * (1 - 1/4) ∧
    transform (fittedTable cfgTort 2008 [p2005]) X2005 =
      ⟨[(p2005, [(1 - 1067/10000) * (1 - 1/4)])], 2008⟩ := by
  refine ⟨?_, ?_, ?_⟩ <;>
    norm_num [transform, scaleRows, fittedTable, lookupFactor, X2005,
      onLevelFactor, avgLevel, cfgTort, levelIntegral, sortedDates,
      tailIntegral, level, vertCum, tortReform, p2005, List.insertionSort,
      List.orderedInsert, List.filter, List.find?]

theorem roundtrip_rows (f : OriginPeriod → ℚ) :
    ∀ rows : List (OriginPeriod × List ℚ), (∀ r ∈ rows, f r.1 ≠ 0) →
      rows.map (fun r =>
        (r.1, r.2.map (fun v => v * f r.1 * (f r.1)⁻¹))) = rows
  | [], _ => rfl
  | r :: rs, h => by
    have hr : f r.1 ≠ 0 := h r (List.mem_cons_self r rs)
    have htl := roundtrip_rows f rs fun r2 h2 => h r2 (List.mem_cons_of_mem r h2)
    simp only [List.map_cons, htl]
    congr 1
    simp [mul_assoc, mul_inv_cancel₀ hr]

/-- Claim C5: for every fitted `ParallelogramOLF` factor table (with the
nonvanishing factors that make the adjustment invertible) and every input
triangle, applying `transform` and then multiplying elementwise by the
reciprocal of each origin period's on-level factor reproduces the original
values exactly. -/
theorem transform_reciprocal_roundtrip (cfg : OLFConfig) (ref : ℚ)
    (ps : List OriginPeriod) (tbl : List (OriginPeriod × ℚ)) (X : Triangle)
    (_hfit : fit cfg ps ref = .ok tbl)
    (hnz : ∀ r ∈ X.rows, lookupFactor tbl r.1 ≠ 0) :
    reciprocalScale tbl (transform tbl X) = X := by
  clear _hfit
  obtain ⟨rows, val⟩ := X
  simp only [reciprocalScale, transform, scaleRows, List.map_map,
    Triangle.mk.injEq, and_true]
  simpa [Function.comp_def, List.map_map, mul_assoc] using
    roundtrip_rows (lookupFactor tbl) rows hnz

/-- Witness for claim C5 on the fitted tort-reform factor table and the
one-row 2005 triangle. -/
theorem transform_reciprocal_roundtrip_witness :
    reciprocalScale (fittedTable cfgTort 2008 [p2005])
      (transform (fittedTable cfgTort 2008 [p2005]) X2005) = X2005 :=
  transform_reciprocal_roundtrip cfgTort 2008 [p2005]
    (fittedTable cfgTort 2008 [p2005]) X2005
    (by norm_num [fit, cfgTort, p2005])
    (by
      intro r hr
      simp only [X2005, List.mem_singleton] at hr
      subst hr
      norm_num [fittedTable, lookupFactor, onLevelFactor, avgLevel, cfgTort,
        levelIntegral, sortedDates, tailIntegral, level, vertCum, tortReform,
        p2005, List.insertionSort, List.orderedInsert, List.filter,
        List.find?])

/-- Claim C6: `ParallelogramOLF.transform` is deterministic and
non-mutating — with the model pure by construction, two calls with the same
fitted factors on the same input are the same value, and the result is a new
triangle of identical shape and metadata. -/
theorem transform_deterministic_shape_preserving
    (tbl : List (OriginPeriod × ℚ)) (X : Triangle) :
    transform tbl X = transform tbl X ∧
    shape (transform tbl X) = shape X ∧
    (transform tbl X).valuation = X.valuation := by
  refine ⟨rfl, ?_, rfl⟩
  simp [shape, transform, scaleRows, List.map_map, Function.comp]

/-- Claim C8: `ParallelogramOLF.fit` fails with `ConfigurationError` exactly
when some supplied origin period `[s, e)` has `e ≤ s` or the earning term
satisfies `T ≤ 0`; otherwise it completes without `ConfigurationError`. -/
theorem fit_configurationError_iff (cfg : OLFConfig)
    (ps : List OriginPeriod) (ref : ℚ) :
    fit cfg ps ref = .error .configurationError ↔
      (∃ p ∈ ps, p.stop ≤ p.start) ∨ cfg.term ≤ 0 := by
  unfold fit
  by_cases hb :
      (ps.any (fun p => decide (p.stop ≤ p.start)) || decide (cfg.term ≤ 0))
        = true
  · rw [if_pos hb]
    simp only [List.any_eq_true, decide_eq_true_eq, Bool.or_eq_true] at hb
    simpa using hb
  · rw [if_neg hb]
    simp only [List.any_eq_true, decide_eq_true_eq, Bool.or_eq_true,
      not_or, not_exists] at hb
    push_neg at hb
    constructor
    · intro hcontra
      exact Except.noConfusion hcontra
    · intro hcase
      rcases hcase with ⟨p, hp, hple⟩ | hT
      · exact absurd hple (not_le.mpr (hb.1 p hp))
      · exact absurd hT (not_le.mpr hb.2)

theorem level_eq_fullProd (sched : Schedule) (c : ℚ)
    (hc : ∀ ev ∈ sched, ev.date ≤ c) :
    level sched c = fullProd sched := by
  unfold level fullProd
  rw [List.filter_eq_self.mpr]
  intro ev hev
  simpa using hc ev hev

theorem mem_le_getLast {l : List ℚ} (hl : l.Sorted (· ≤ ·)) {x : ℚ}
    (hx : x ∈ l) (h : l ≠ []) : x ≤ l.getLast h := by
  induction l with
  | nil => cases hx
  | cons a l ih =>
    rcases List.mem_cons.mp hx with rfl | hx2
    · cases l with
      | nil => simp [List.getLast]
      | cons b l2 =>
        rw [List.getLast_cons (by simp)]
        exact List.rel_of_sorted_cons hl _ (List.getLast_mem (by simp))
    · cases l with
      | nil => cases hx2
      | cons b l2 =>
        rw [List.getLast_cons (by simp)]
        exact ih hl.of_cons hx2 (by simp)

theorem tailIntegral_of_cum_zero (sched : Schedule) (Wcum : ℚ → ℚ)
    (Wtot : ℚ) (ds : List ℚ) (hds : ds ≠ [])
    (h0 : ∀ d ∈ ds, Wcum d = 0) :
    tailIntegral sched Wcum Wtot ds =
      level sched (ds.getLast hds) * Wtot := by
  induction ds with
  | nil => exact absurd rfl hds
  | cons d rest ih =>
    cases rest with
    | nil =>
      simp [tailIntegral, List.getLast, h0 d (by simp)]
    | cons d2 rest2 =>
      rw [tailIntegral, List.getLast_cons (by simp)]
      rw [h0 d (by simp), h0 d2 (by simp)]
      rw [ih (by simp) (fun x hx => h0 x (List.mem_cons_of_mem d hx))]
      ring

theorem levelIntegral_all_before (sched : Schedule) (Wcum : ℚ → ℚ)
    (Wtot : ℚ) (c : ℚ) (hev : ∀ ev ∈ sched, ev.date ≤ c)
    (h0 : ∀ d : ℚ, d ≤ c → Wcum d = 0) :
    levelIntegral sched Wcum Wtot = fullProd sched * Wtot := by
  have hmem : ∀ d ∈ sortedDates sched, d ≤ c := by
    intro d hd
    unfold sortedDates at hd
    rw [List.mem_insertionSort] at hd
    obtain ⟨ev, hev2, rfl⟩ := List.mem_map.mp hd
    exact hev ev hev2
  unfold levelIntegral
  cases hds : sortedDates sched with
  | nil =>
    have hnil : sched = [] := by
      have := congrArg List.length hds
      rw [sortedDates, List.length_insertionSort, List.length_map] at this
      exact List.length_eq_zero.mp this
    simp [hnil, fullProd]
  | cons d rest =>
    have hzero : ∀ x ∈ d :: rest, Wcum x = 0 := by
      intro x hx
      exact h0 x (hmem x (hds ▸ hx))
    show Wcum d + tailIntegral sched Wcum Wtot (d :: rest) =
      fullProd sched * Wtot
    rw [tailIntegral_of_cum_zero sched Wcum Wtot (d :: rest) (by simp) hzero]
    have hlast_mem : (d :: rest).getLast (by simp) ∈ sortedDates sched := by
      rw [hds]
      exact List.getLast_mem (by simp)
    have hsorted : (sortedDates sched).Sorted (· ≤ ·) :=
      List.sorted_insertionSort (· ≤ ·) _
    have hlevel : level sched ((d :: rest).getLast (by simp)) =
        fullProd sched := by
      apply level_eq_fullProd
      intro ev hev2
      have hdate : ev.date ∈ sortedDates sched := by
        rw [sortedDates, List.mem_insertionSort]
        exact List.mem_map.mpr ⟨ev, hev2, rfl⟩
      have := mem_le_getLast hsorted hdate (by rw [hds]; simp)
      rwa [show (sortedDates sched).getLast (by rw [hds]; simp) =
        (d :: rest).getLast (by simp) from by congr 1] at this
    rw [hlevel, hzero d (by simp)]
    ring

theorem avgLevel_all_before (cfg : OLFConfig) (p : OriginPeriod)
    (hev : ∀ ev ∈ cfg.sched, ev.date ≤ p.start)
    (hp : p.start < p.stop) (hT : 0 < cfg.term) :
    avgLevel cfg p = fullProd cfg.sched := by
  have hes : p.stop - p.start ≠ 0 := by
    intro h
    exact absurd (sub_eq_zero.mp h).symm (ne_of_lt hp)
  unfold avgLevel
  cases hvl : cfg.vertical_line with
  | true =>
    rw [if_pos rfl]
    rw [levelIntegral_all_before cfg.sched _ _ p.start hev]
    · field_simp
    · intro d hd
      unfold vertCum
      have h1 : min d p.stop ≤ p.start := le_trans (min_le_left _ _) hd
      rw [max_eq_left h1, sub_self]
  | false =>
    rw [if_neg (by simp)]
    rw [levelIntegral_all_before cfg.sched _ _ p.start hev]
    · rw [mul_div_assoc, div_self (by positivity), mul_one]
    · intro d hd
      unfold triCum
      have hm : (0 : ℚ) < min cfg.term (p.stop - p.start) :=
        lt_min hT (by linarith)
      have h1 : min d (p.stop + cfg.term) ≤ p.start := by
        refine le_trans (min_le_left _ _) hd
      rw [max_eq_left h1]
      rw [if_pos (by linarith)]
      simp

/-- Claim C7: for every origin period whose interval lies entirely within
the most recent rate segment (every rate change is effective on or before
the period's start) and equals the reference period (the reference current
date lies in that same segment), with a nondegenerate period, a positive
term and a nonvanishing level, the on-level factor computed by `fit` is
exactly 1. -/
theorem onLevelFactor_eq_one (cfg : OLFConfig) (ref : ℚ) (p : OriginPeriod)
    (hev : ∀ ev ∈ cfg.sched, ev.date ≤ p.start)
    (hp : p.start < p.stop) (hT : 0 < cfg.term) (href : p.start ≤ ref)
    (hnz : fullProd cfg.sched ≠ 0) :
    onLevelFactor cfg ref p = 1 := by
  unfold onLevelFactor
  rw [avgLevel_all_before cfg p hev hp hT,
    level_eq_fullProd cfg.sched ref
      (fun ev h => le_trans (hev ev h) href),
    div_self hnz]

/-- Witness for claim C7: a single +5% change at 2000-01-01, origin period
2001 with a one-year parallelogram term, reference date 2002. -/
theorem onLevelFactor_eq_one_witness :
    onLevelFactor ⟨[⟨2000, 1/20⟩], false, 1⟩ 2002 ⟨2001, 2002⟩ = 1 :=
  onLevelFactor_eq_one ⟨[⟨2000, 1/20⟩], false, 1⟩ 2002 ⟨2001, 2002⟩
    (by intro ev h; rw [List.mem_singleton] at h; subst h; norm_num)
    (by norm_num) (by norm_num) (by norm_num)
    (by norm_num [fullProd])

/-- Claim C1: for every triangle `X` and weight series `W` (and every
external `Development` and `CapeCod` estimator consumed through the
estimator contract), fitting the pipeline whose stages are
`[ParallelogramOLF, Development, CapeCod]` with sample weight `W` yields the
same terminal `ultimate_` result as manually computing
`X1 = OLF.fit_transform(X)`, `X2 = Development.fit_transform(X1)`,
`CapeCod.fit(X2, sample_weight=W)`. -/
theorem pipelineFit_eq_manualCapeCod (cfg : OLFConfig) (ref : ℚ)
    (devF : Triangle → Except CLError Triangle)
    (ccF : Triangle → Option Triangle → Except CLError Triangle)
    (X W : Triangle) :
    pipelineFit [olfStage cfg ref, devStage devF] (capeCodStage ccF) X
      (some W) = manualCapeCod cfg ref devF ccF X W := by
  simp only [pipelineFit, runStages, manualCapeCod, olfStage, devStage,
    capeCodStage]
  cases h1 : fitTransform cfg ref X with
  | error e => rfl
  | ok X1 =>
    show ((devF X1).bind fun X2 => Except.ok X2).bind
        (fun Xn => ccF Xn (some W)) =
      (devF X1).bind fun X2 => ccF X2 (some W)
    cases devF X1 with
    | error e => rfl
    | ok X2 => rfl

theorem runStages_append (l1 l2 : List TStage) (X : Triangle)
    (w : Option Triangle) :
    runStages (l1 ++ l2) X w =
      (runStages l1 X w).bind (fun X2 => runStages l2 X2 w) := by
  induction l1 generalizing X with
  | nil => rfl
  | cons st rest ih =>
    show (st.fitTransform X w).bind _ = ((st.fitTransform X w).bind _).bind _
    cases st.fitTransform X w with
    | error e => rfl
    | ok X2 => exact ih X2

/-- Claim C9: if a stage fails during `Pipeline.fit` — the preceding stages
succeed and that stage's `fit_transform` raises `e` — then the fit aborts
there with the stage's own error `e` propagated unmodified, whatever the
not-yet-reached stages and terminal estimator are, and no incomplete fitted
state is committed (the result is the bare error). -/
theorem pipelineFit_aborts_on_stage_error (pre post : List TStage)
    (st : TStage) (last : TerminalStage) (X X1 : Triangle)
    (w : Option Triangle) (e : CLError)
    (hpre : runStages pre X w = .ok X1)
    (herr : st.fitTransform X1 w = .error e) :
    pipelineFit (pre ++ st :: post) last X w = .error e := by
  unfold pipelineFit
  rw [runStages_append, hpre]
  show ((st.fitTransform X1 w).bind _).bind _ = _
  rw [herr]
  rfl

/-- Witness for claim C9: no preceding stages, a stage that raises
`ConfigurationError`, one unreached identity stage and an identity terminal
estimator. -/
theorem pipelineFit_aborts_on_stage_error_witness :
    pipelineFit ([] ++ TStage.mk (fun _ _ => .error .configurationError) ::
        [TStage.mk fun X _ => .ok X])
      (TerminalStage.mk fun X _ => .ok X) X2005 none =
      .error .configurationError :=
  pipelineFit_aborts_on_stage_error []
    [TStage.mk fun X _ => .ok X]
    (TStage.mk fun _ _ => .error .configurationError)
    (TerminalStage.mk fun X _ => .ok X) X2005 X2005 none
    .configurationError rfl rfl

/-- Claim C10: `Pipeline.fit` leaves the input triangle unchanged and
fitted state is confined to each pipeline: fitting a second,
differently-configured pipeline on the same input afterwards yields exactly
the result it would yield on a fresh copy of the input, and leaves the
first pipeline's committed terminal result unaltered. -/
theorem sessionFit_frame (p1 p2 : List TStage) (last1 last2 : TerminalStage)
    (w1 w2 : Option Triangle) (X : Triangle) :
    (sessionFit p2 last2 w2 (sessionFit p1 last1 w1 ⟨X, []⟩)).data = X ∧
    (sessionFit p2 last2 w2 (sessionFit p1 last1 w1 ⟨X, []⟩)).results =
      [pipelineFit p1 last1 X w1, pipelineFit p2 last2 X w2] := by
  constructor
  · rfl
  · rfl

end OnLevel
